import Mathlib

/-!
Shallow embedding of the probing core of cPing (`src/cping`), together with
theorems settling the frozen claims about it.  Python floats are modelled as
exact rationals, Python deques as Lean lists (oldest element first), and
threading state (events, threads) as explicit boolean/optional fields of a
state record.  Each embedded definition mirrors one Python function and keeps
its name where Lean allows it.
-/

namespace Cping

/-- A ping result, as built by `Host.add_result` in
`src/cping/protocols/__init__.py`: a dictionary with `latency`, `error`,
`hidden` and `info` fields.  `info` carries the ICMP sequence number when the
ICMP prober sets it, and is `none` otherwise. -/
structure PingResult where
  latency : ℚ
  error : Bool
  hidden : Bool
  info : Option Nat
deriving Repr, DecidableEq

/-- `RESULTS_LENGTH_MINIMUM` of `src/cping/protocols/__init__.py`: lower bound
on the number of results. -/
def RESULTS_LENGTH_MINIMUM : Nat := 50

/-- The observable state of a `cping.protocols.Host`.  `rawResults` is the
`raw_results` deque, oldest first, bounded by `maxlen`.  `testThread` is the
identity of the thread held in `_test_thread` (`none` before the first
`start`), `threadAlive` records whether that thread is alive, and
`threadsCreated` counts every thread `start` ever created, so that the
creation of a second thread is observable in the state. -/
structure HostState where
  rawResults : List PingResult
  maxlen : Nat
  status : Option String
  stopSignal : Bool
  burstMode : Bool
  testThread : Option Nat
  threadAlive : Bool
  threadsCreated : Nat
deriving Repr, DecidableEq

/-- `Host.__init__`: an empty deque with `maxlen=RESULTS_LENGTH_MINIMUM`, no
status, both events cleared, and no test thread yet. -/
def Host.init : HostState :=
  { rawResults := [], maxlen := RESULTS_LENGTH_MINIMUM, status := none,
    stopSignal := false, burstMode := false, testThread := none,
    threadAlive := false, threadsCreated := 0 }

/-- The `Host.results` property: the non-hidden results, oldest first. -/
def HostState.results (h : HostState) : List PingResult :=
  h.rawResults.filter (fun r => !r.hidden)

/-- `collections.deque.append` on a deque with a `maxlen`: the element is
appended on the right and the deque keeps its last `maxlen` elements, so the
oldest element is dropped exactly when the deque was full. -/
def dequeAppend (maxlen : Nat) (xs : List PingResult) (x : PingResult) :
    List PingResult :=
  let ys := xs ++ [x]
  ys.drop (ys.length - maxlen)

/-- `Host.add_result latency error hidden info`: appends the result dictionary
to `raw_results` (the summary cache clearing has no observable counterpart
here since the summary is recomputed on demand). -/
def HostState.add_result (h : HostState) (latency : ℚ) (error : Bool)
    (hidden : Bool) (info : Option Nat) : HostState :=
  { h with rawResults :=
      dequeAppend h.maxlen h.rawResults ⟨latency, error, hidden, info⟩ }

/-- `Host.set_results_length`: clamps the requested length to
`RESULTS_LENGTH_MINIMUM`, and unless the maxlen is unchanged rebuilds the
deque with the new maxlen; `collections.deque(old, maxlen=n)` keeps the last
`n` elements of `old`.  The argument is an `Int` since Python allows a
negative length (which the clamp absorbs). -/
def HostState.set_results_length (h : HostState) (length : Int) : HostState :=
  let len := (max length (RESULTS_LENGTH_MINIMUM : Int)).toNat
  if h.maxlen = len then h
  else { h with maxlen := len,
                rawResults := h.rawResults.drop (h.rawResults.length - len) }

/-- `Host.is_running`: the test thread exists and is alive. -/
def HostState.is_running (h : HostState) : Bool :=
  h.testThread.isSome && h.threadAlive

/-- `Host.start`: clears the status and the stop signal, and only when the
host is not already running creates (and starts) a new daemonized test
thread.  The `delay` argument and the ping loop body are external effects and
have no counterpart in this state transition. -/
def HostState.start (h : HostState) : HostState :=
  let h1 := { h with status := none, stopSignal := false }
  if h1.is_running then h1
  else { h1 with testThread := some h1.threadsCreated, threadAlive := true,
                 threadsCreated := h1.threadsCreated + 1 }

/-- `Host.stop`: sets the stop signal and, when `block` is true, joins
`_test_thread` — which raises `AttributeError` when `_test_thread` is still
`None`, since `None` has no `join` method. -/
def HostState.stop (h : HostState) (block : Bool) : Except String HostState :=
  let h1 := { h with stopSignal := true }
  if block then
    match h1.testThread with
    | none => .error "AttributeError"
    | some _ => .ok h1
  else .ok h1

/-- Python `min` over a list of rationals (`0` for the empty list, which the
code never evaluates: it is only called on a non-empty list). -/
def listMin : List ℚ → ℚ
  | [] => 0
  | x :: xs => xs.foldl min x

/-- Python `max` over a list of rationals (`0` for the empty list). -/
def listMax : List ℚ → ℚ
  | [] => 0
  | x :: xs => xs.foldl max x

/-- The arithmetic mean used by the summary (`sum(results) / len(results)`). -/
def listMean (xs : List ℚ) : ℚ :=
  xs.sum / xs.length

/-- The sample variance, the square of Python's `statistics.stdev`. -/
def sampleVariance (xs : List ℚ) : ℚ :=
  (xs.map (fun x => (x - listMean xs) ^ 2)).sum / ((xs.length : ℚ) - 1)

/-- The `results_summary` dictionary.  The latency statistics are in
milliseconds.  The `stdev` field carries the sample variance of the successful
latencies in seconds squared: the code stores `statistics.stdev(results) *
1000`, i.e. `1000 * sqrt` of this field, so the two are null together and one
is zero iff the other is. -/
structure Summary where
  min : Option ℚ
  avg : Option ℚ
  max : Option ℚ
  stdev : Option ℚ
  loss : Option ℚ
deriving Repr, DecidableEq

/-- `Host._get_results_summary`: starts with every statistic `None`, filters
the visible results down to the successful latencies (`latency >= 0`), and
only when that list is non-empty fills in min/avg/max/loss — and stdev only
when there are at least two successes. -/
def HostState._get_results_summary (h : HostState) : Summary :=
  let results := (h.results.filter (fun r => 0 ≤ r.latency)).map
    (fun r => r.latency)
  if results.isEmpty then
    { min := none, avg := none, max := none, stdev := none, loss := none }
  else
    { min := some (listMin results * 1000),
      avg := some (listMean results * 1000),
      max := some (listMax results * 1000),
      stdev := if 1 < results.length then some (sampleVariance results)
               else none,
      loss := some (1 - (results.length : ℚ) / (h.results.length : ℚ)) }

/-- An externally invokable operation on the host's result store.  Of all the
operations on a `Host`, only `add_result` and `set_results_length` change
`raw_results` or its maxlen (`start`/`stop`/`wait` do not, and the ICMP
receiver only rewrites fields of results already in the deque). -/
inductive HostOp where
  | add (latency : ℚ) (error : Bool) (hidden : Bool) (info : Option Nat)
  | setLength (length : Int)
deriving Repr, DecidableEq

/-- Apply one result-store operation to the host. -/
def applyHostOp (h : HostState) : HostOp → HostState
  | .add l e hd i => h.add_result l e hd i
  | .setLength n => h.set_results_length n

/-- Run a sequence of result-store operations, oldest first. -/
def runHostOps (h : HostState) (ops : List HostOp) : HostState :=
  ops.foldl applyHostOp h

/-- `Host.wait(latency)` of `src/cping/protocols/__init__.py`: returns at once
when the previous probe failed (`latency == -1`) or burst mode is set, and
otherwise waits on `ready_signal` for `interval - latency` seconds.  The
returned value is the wait it performs: `none` for an immediate return,
`some t` for a timed wait on the ready signal. -/
def Host.wait (interval latency : ℚ) (burstMode : Bool) : Option ℚ :=
  if latency = -1 ∨ burstMode = true then none
  else some (interval - latency)

/-- The state monitored by `cping.utils.create_shared_event`: the set/unset
flags of the member events and the flag of the shared event. -/
structure SharedEventState where
  members : List Bool
  shared : Bool
deriving Repr, DecidableEq

/-- `create_shared_event(*events)`: a fresh `threading.Event` (unset) becomes
the shared event and the members' `set`/`clear` methods are patched; the
`update` closure is not invoked at creation time, so the shared event starts
unset whatever the members' states are. -/
def create_shared_event (members : List Bool) : SharedEventState :=
  { members := members, shared := false }

/-- The `update` closure of `create_shared_event`: sets the shared event if
any member event is set, clears it otherwise. -/
def sharedUpdate (s : SharedEventState) : SharedEventState :=
  { s with shared := s.members.any id }

/-- A call to a patched member method, naming the member by its index. -/
inductive EventOp where
  | set (i : Nat)
  | clear (i : Nat)
deriving Repr, DecidableEq

/-- A patched `set`/`clear`: the original member operation followed by
`update` on the shared event. -/
def applyEventOp (s : SharedEventState) : EventOp → SharedEventState
  | .set i => sharedUpdate { s with members := s.members.set i true }
  | .clear i => sharedUpdate { s with members := s.members.set i false }

/-- Run a finite sequence of member `set`/`clear` calls, oldest first. -/
def runEventOps (s : SharedEventState) (ops : List EventOp) : SharedEventState :=
  ops.foldl applyEventOp s

/-- The `for result in host.raw_results` loop of `Ping.receiver`
(`src/cping/protocols/icmp.py`): walks the raw results in order and, at the
first one whose `info` equals the reply's sequence, writes the computed
latency into it; when the latency is within the registered interval the
host's reply event is set, otherwise the result is marked an error and the
event is left alone; the loop then breaks.  Returns the updated list and
whether the event was set. -/
def receiverScan (latency interval : ℚ) (sequence : Nat) :
    List PingResult → List PingResult × Bool
  | [] => ([], false)
  | r :: rs =>
    if r.info = some sequence then
      if latency ≤ interval then
        ({ r with latency := latency } :: rs, true)
      else
        ({ r with latency := latency, error := true } :: rs, false)
    else
      let step := receiverScan latency interval sequence rs
      (r :: step.1, step.2)

/-- The per-reply step of `Ping.receiver` after unpacking: the payload
identifier is looked up in `Ping.host_map` (modelled as an association list
from identifier to the interval registered with the host's entry); an unknown
identifier drops the packet, a registered one scans that host's raw results.
Returns the (possibly updated) results and whether the reply event was set. -/
def receiverStep (hostMap : List (Nat × ℚ)) (identifier sequence : Nat)
    (latency : ℚ) (results : List PingResult) : List PingResult × Bool :=
  match hostMap.lookup identifier with
  | none => (results, false)
  | some interval => receiverScan latency interval sequence results

/-- The classification of `test_socket.connect` in the TCP `ping_loop`
(`src/cping/protocols/tcp.py`): the handshake completed after `elapsed`
seconds, it was answered by an error such as a TCP-RST (`ConnectionError`),
or it failed with an `OSError` (host down, `socket.timeout`). -/
inductive ConnectOutcome where
  | completed (elapsed : ℚ)
  | connectionError (elapsed : ℚ)
  | osError
deriving Repr, DecidableEq

/-- An observable action of a TCP ping-loop iteration, in program order.
`hostWait` is the call `host.wait(latency)`; `stopSignalWait` is the call
`host.stop_signal.wait(timeout)`. -/
inductive TcpAction where
  | addResult (latency : ℚ) (error : Bool)
  | closeSocket
  | stopSignalWait (timeout : ℚ)
  | hostWait (latency : ℚ)
deriving Repr, DecidableEq

/-- Modelled from the spec: `Ping.get_timeout(latency, host)` is called by the
TCP `ping_loop` and exercised by `tests/test___init__.py`, but its definition
is missing from `src/cping/protocols/__init__.py`.  Per the spec's wait
contract (no inter-probe wait when the probe already spent the interval,
`latency == -1`, or when burst mode is set; otherwise `interval − latency`),
it returns the timeout of the inter-probe wait. -/
def get_timeout (interval latency : ℚ) (burstMode : Bool) : ℚ :=
  if latency = -1 ∨ burstMode = true then 0 else interval - latency

/-- One iteration of the TCP `ping_loop` body (`tcp.py`), given the
classification of the connect attempt: the outcome is classified into
`(latency, error)`, the result is appended, the socket is closed, and the
iteration ends with `host.stop_signal.wait(self.get_timeout(latency, host))`
(breaking out of the loop when that wait reports the stop signal set).
Returns the trace of observable actions of the iteration. -/
def tcpIteration (interval : ℚ) (burstMode : Bool) (outcome : ConnectOutcome) :
    List TcpAction :=
  let classified :=
    match outcome with
    | .completed elapsed => (elapsed, false)
    | .connectionError elapsed => (elapsed, true)
    | .osError => ((-1 : ℚ), false)
  [TcpAction.addResult classified.1 classified.2, TcpAction.closeSocket,
   TcpAction.stopSignalWait (get_timeout interval classified.1 burstMode)]

/-- The keyword parameters accepted by `cping.protocols.Ping.__init__` as
defined in `src/cping/protocols/__init__.py`: `def __init__(self, interval=1)`
accepts only `interval`.  `PingTCP.__init__` and `PingICMP.__init__` forward
their `**kwargs` to it unchanged. -/
def pingInitKeywords : List String := ["interval"]

/-- Whether a Python call `Ping.__init__(self, **kwargs)` with the given
keyword names is accepted; a keyword outside the accepted list raises
`TypeError: __init__() got an unexpected keyword argument`. -/
def pingInitAccepts (kwargs : List String) : Bool :=
  kwargs.all (fun k => pingInitKeywords.contains k)

/-- The keyword-argument names the CLI (`src/cping/__main__.py`) passes when
it constructs `PingICMP(interval=args.interval, family=args.family)`. -/
def mainIcmpKwargs : List String := ["interval", "family"]

/-- The keyword-argument names the CLI passes on to `cping.protocols.Ping`
when it constructs `PingTCP(port=args.port, interval=args.interval,
family=args.family)` (`port` is consumed by `PingTCP.__init__` itself). -/
def mainTcpForwardedKwargs : List String := ["interval", "family"]

/-- The optional arguments of a `socket.getaddrinfo` call; a field is `none`
when the call site does not pass it. -/
structure GetAddrInfoCall where
  port : Option Nat
  family : Option Nat
  proto : Option Nat
deriving Repr, DecidableEq

/-- The resolution call of the ICMP `ping_loop` (`icmp.py`):
`socket.getaddrinfo(host=host.address, port=None)` — no family argument is
passed, so resolution is never restricted to an IP family. -/
def icmpResolveCall : GetAddrInfoCall :=
  { port := none, family := none, proto := none }

/-- Byte order of the host machine: it determines how Python's
`array.array('H', data)` groups bytes into 16-bit words and what
`socket.htons` does. -/
inductive ByteOrder where
  | littleEndian
  | bigEndian
deriving Repr, DecidableEq

/-- The 16-bit words of a byte string under the given host byte order, as
`array.array('H', data)` reads them (the callers pad `data` to even length). -/
def words16 : ByteOrder → List Nat → List Nat
  | _, [] => []
  | _, [_] => []
  | .littleEndian, a :: b :: rest => (a + 256 * b) :: words16 .littleEndian rest
  | .bigEndian, a :: b :: rest => (256 * a + b) :: words16 .bigEndian rest

/-- The end-around-carry loop of `Session.get_checksum`:
`while checksum >> 16: checksum = (checksum & 0xffff) + (checksum >> 16)`. -/
def foldCarry (checksum : Nat) : Nat :=
  if checksum < 2 ^ 16 then checksum
  else foldCarry (checksum % 2 ^ 16 + checksum / 2 ^ 16)
termination_by checksum
decreasing_by simp_wf; omega

/-- Byte swap of a 16-bit value; this is what `socket.htons` does on a
little-endian host. -/
def swap16 (x : Nat) : Nat := x % 256 * 256 + x / 256

/-- `socket.htons`: host byte order to network (big-endian) byte order of a
16-bit value — a byte swap on a little-endian host, the identity on a
big-endian one. -/
def htons : ByteOrder → Nat → Nat
  | .littleEndian, x => swap16 x
  | .bigEndian, x => x

/-- `Session.get_checksum(data)` on a host with byte order `bo`: pads data of
odd length with a zero byte, sums the host-order 16-bit words, end-around
carries the sum to 16 bits, takes the one's complement normalized to 16 bits
(`~checksum & 0xffff`, i.e. `0xffff - checksum` for a 16-bit `checksum`), and
packs `htons` of that in network byte order (`struct.pack` format `!H`). -/
def get_checksum (bo : ByteOrder) (data : List Nat) : List Nat :=
  let padded := if data.length % 2 = 1 then data ++ [0] else data
  let checksum := foldCarry (words16 bo padded).sum
  let packed := htons bo (2 ^ 16 - 1 - checksum)
  [packed / 256, packed % 256]

/-- The state of an ICMP `Session` read and written by `create_icmp_echo`:
the ICMP type, the 16-bit identifier and the 16-bit sequence counter. -/
structure Session where
  packet_type : Nat
  identifier : Nat
  sequence : Nat
deriving Repr, DecidableEq

/-- `Session.__init__(family)`: the ICMP type is 8 when the family is 4 and
128 otherwise; the random draws for the initial `sequence` and the
registry-unique `identifier` are inputs of the model. -/
def Session.init (family identifier sequence : Nat) : Session :=
  { packet_type := if family = 4 then 8 else 128,
    identifier := identifier, sequence := sequence }

/-- Big-endian encoding of a 16-bit value as two bytes (`struct` format `H`
under `!`). -/
def packH (x : Nat) : List Nat := [x / 256, x % 256]

/-- `Session.packet_struct.pack(ptype, 0, checksum, identifier, sequence,
identifier, timestamp)` with format `!BBHHHHf`: the 14 packet bytes in
network byte order.  The timestamp is represented by the four bytes of its
IEEE-754 single-precision big-endian encoding, which is what `struct`
emits for `f`; the float value itself plays no role in the claims. -/
def packIcmpEcho (ptype checksum identifier sequence : Nat)
    (tsBytes : List Nat) : List Nat :=
  [ptype, 0] ++ packH checksum ++ packH identifier ++ packH sequence ++
    packH identifier ++ tsBytes

/-- `Session.create_icmp_echo()` on a host with byte order `bo`: advances the
sequence (`self.sequence + 1 & 0xffff`), packs the request with the checksum
field zeroed, and splices the computed checksum into bytes 2..3
(`request[:2] + get_checksum(request) + request[4:]`).  Returns the updated
session and the request bytes. -/
def Session.create_icmp_echo (bo : ByteOrder) (s : Session)
    (tsBytes : List Nat) : Session × List Nat :=
  let s2 := { s with sequence := (s.sequence + 1) % 2 ^ 16 }
  let request := packIcmpEcho s2.packet_type 0 s2.identifier s2.sequence tsBytes
  (s2, request.take 2 ++ get_checksum bo request ++ request.drop 4)

/-- The reference checksum named by the claim (RFC 1071): the 16-bit one's
complement of the one's-complement sum of the 16-bit words of `data` read in
network (big-endian) byte order. -/
def rfc1071Checksum (data : List Nat) : Nat :=
  2 ^ 16 - 1 - foldCarry (words16 .bigEndian data).sum

/-! ## Theorems -/

/-- Each patched member operation re-establishes the shared-event relation:
after it runs, the shared event is set iff some member is set. -/
theorem applyEventOp_shared (s : SharedEventState) (op : EventOp) :
    (applyEventOp s op).shared = (applyEventOp s op).members.any id := by
  cases op <;> rfl

/-- Once the shared-event relation holds it is preserved by any further
sequence of member operations. -/
theorem runEventOps_shared (ops : List EventOp) (s : SharedEventState)
    (hs : s.shared = s.members.any id) :
    (runEventOps s ops).shared = (runEventOps s ops).members.any id := by
  induction ops generalizing s with
  | nil => exact hs
  | cons op rest ih => exact ih (applyEventOp s op) (applyEventOp_shared s op)

/-- C10: on a host whose `_test_thread` is still `None` — as it is for every
host on which `start` has never been called — `stop(block=True)` raises
`AttributeError` (joining `None`), while `stop(block=False)` succeeds and
changes nothing but the stop signal, which it sets. -/
theorem C10_stop_before_start (h : HostState) (hnone : h.testThread = none) :
    h.stop true = Except.error "AttributeError" ∧
    h.stop false = Except.ok { h with stopSignal := true } := by
  refine ⟨?_, ?_⟩ <;> simp [HostState.stop, hnone]

/-- C10 witness: the freshly constructed host. -/
theorem C10_stop_before_start_witness :
    Host.init.testThread = none ∧
    Host.init.stop true = Except.error "AttributeError" ∧
    Host.init.stop false = Except.ok { Host.init with stopSignal := true } :=
  ⟨rfl, C10_stop_before_start Host.init rfl⟩

/-- C6 counterexample: on a running host whose status is set and whose stop
signal is set, a second `start` is not a no-op on the observable state — it
resets the status and clears the stop signal. -/
theorem C6_counterexample :
    (HostState.is_running
      { rawResults := [], maxlen := 50, status := some "x",
        stopSignal := true, burstMode := false, testThread := some 0,
        threadAlive := true, threadsCreated := 1 } = true) ∧
    (HostState.start
      { rawResults := [], maxlen := 50, status := some "x",
        stopSignal := true, burstMode := false, testThread := some 0,
        threadAlive := true, threadsCreated := 1 }) ≠
      { rawResults := [], maxlen := 50, status := some "x",
        stopSignal := true, burstMode := false, testThread := some 0,
        threadAlive := true, threadsCreated := 1 } := by
  decide

/-- C6 (amended): while the host is running, a second `start` creates no new
probe thread and leaves the thread reference, its liveness and the results
unchanged — but it does reset `status` to `None` and clear the stop signal
(it does so before checking `is_running`). -/
theorem C6_start_while_running (h : HostState) (hrun : h.is_running = true) :
    h.start.threadsCreated = h.threadsCreated ∧
    h.start.testThread = h.testThread ∧
    h.start.threadAlive = h.threadAlive ∧
    h.start.rawResults = h.rawResults ∧
    h.start.status = none ∧
    h.start.stopSignal = false := by
  simp only [HostState.start, HostState.is_running] at hrun ⊢
  simp [hrun]

/-- C6 witness: a concrete running host. -/
theorem C6_start_while_running_witness :
    (HostState.is_running
      { rawResults := [], maxlen := 50, status := some "x",
        stopSignal := true, burstMode := false, testThread := some 3,
        threadAlive := true, threadsCreated := 4 } = true) ∧
    ((HostState.start
      { rawResults := [], maxlen := 50, status := some "x",
        stopSignal := true, burstMode := false, testThread := some 3,
        threadAlive := true, threadsCreated := 4 }).threadsCreated = 4 ∧
     (HostState.start
      { rawResults := [], maxlen := 50, status := some "x",
        stopSignal := true, burstMode := false, testThread := some 3,
        threadAlive := true, threadsCreated := 4 }).status = none) := by
  refine ⟨by decide, ?_, ?_⟩
  · exact (C6_start_while_running _ (by decide)).1
  · exact (C6_start_while_running _ (by decide)).2.2.2.2.1

/-- C2 counterexample: a host with exactly one visible result, a timeout
(`latency = -1`) — so the visible results are non-empty and none is a
success — reports `loss = None`, not `loss = 1`. -/
theorem C2_counterexample :
    (Host.init.add_result (-1) false false none).results ≠ [] ∧
    (Host.init.add_result (-1) false false none)._get_results_summary.loss =
      none := by
  decide

/-- C2 (amended): every summary statistic, `loss` included, is `None` whenever
no visible result is a success (`latency ≥ 0`) — in particular when there are
no visible results at all; when at least one visible result is a success,
`loss = 1 − successes/total_visible`. -/
theorem C2_loss (h : HostState) :
    (h.results.filter (fun r => 0 ≤ r.latency) = [] →
      h._get_results_summary = ⟨none, none, none, none, none⟩) ∧
    (h.results.filter (fun r => 0 ≤ r.latency) ≠ [] →
      h._get_results_summary.loss =
        some (1 - ((h.results.filter (fun r => 0 ≤ r.latency)).length : ℚ) /
          (h.results.length : ℚ))) := by
  constructor
  · intro he
    simp [HostState._get_results_summary, he]
  · intro he
    simp [HostState._get_results_summary, he]

/-- C2 witness: a host with a single successful visible result has zero
loss (`1 − 1/1`). -/
theorem C2_loss_witness :
    ((Host.init.add_result 2 false false none).results.filter
      (fun r => 0 ≤ r.latency) ≠ []) ∧
    (Host.init.add_result 2 false false none)._get_results_summary.loss =
      some 0 := by
  have hres : (Host.init.add_result 2 false false none).results =
      [⟨2, false, false, none⟩] := by
    norm_num [Host.init, HostState.add_result, dequeAppend, HostState.results,
      RESULTS_LENGTH_MINIMUM]
  have hfilter : (Host.init.add_result 2 false false none).results.filter
      (fun r => 0 ≤ r.latency) = [⟨2, false, false, none⟩] := by
    rw [hres]
    norm_num [List.filter]
  have h := (C2_loss (Host.init.add_result 2 false false none)).2
    (by rw [hfilter]; exact List.cons_ne_nil _ _)
  refine ⟨by rw [hfilter]; exact List.cons_ne_nil _ _, ?_⟩
  rw [h, hfilter, hres]
  norm_num

/-- C1 counterexample: the TCP iteration with interval 1, burst mode off and
a handshake completed in 1/4 s never invokes `host.wait(latency)`: its
inter-probe pause is `host.stop_signal.wait(self.get_timeout(latency, host))`
with timeout 3/4. -/
theorem C1_counterexample :
    TcpAction.hostWait 1 ∉ tcpIteration 2 false (.completed 1) ∧
    tcpIteration 2 false (.completed 1) =
      [.addResult 1 false, .closeSocket, .stopSignalWait 1] := by
  constructor
  · norm_num [tcpIteration, get_timeout]
    exact ⟨by decide, by decide, by decide⟩
  · norm_num [tcpIteration, get_timeout]

/-- C1 (amended): every TCP ping-loop iteration, after classifying the
connect attempt, appends the result, closes the socket, and then waits on the
host's stop signal with timeout `self.get_timeout(latency, host)` — not
`host.wait(latency)`; since `get_timeout` is zero whenever burst mode is set,
setting `burst_mode` still collapses the TCP inter-probe wait to zero (while
the per-probe connect timeout is untouched, being `interval` on the socket). -/
theorem C1_tcp_wait (interval : ℚ) (burstMode : Bool)
    (outcome : ConnectOutcome) :
    (∃ latency error,
      tcpIteration interval burstMode outcome =
        [.addResult latency error, .closeSocket,
         .stopSignalWait (get_timeout interval latency burstMode)]) ∧
    (∀ latency : ℚ, get_timeout interval latency true = 0) := by
  constructor
  · cases outcome <;> exact ⟨_, _, rfl⟩
  · intro latency
    simp [get_timeout]

/-- C4: the CLI passes a `family` keyword when constructing `PingICMP` and
`PingTCP`, and the repository's own tests assert a `family` attribute, but
`Ping.__init__` as defined in the sources accepts only `interval`, so the
CLI construction raises `TypeError`; moreover the ICMP `ping_loop` resolves
the host with no family argument, so resolution is not restricted to an IP
family. -/
theorem C4_family_not_supported :
    pingInitAccepts mainIcmpKwargs = false ∧
    pingInitAccepts mainTcpForwardedKwargs = false ∧
    icmpResolveCall.family = none := by
  decide

/-- C3 counterexample: a member event that is already set when
`create_shared_event` runs is not reflected — immediately after creation the
shared event is unset although a member is set. -/
theorem C3_counterexample :
    (create_shared_event [true]).members.any id = true ∧
    (create_shared_event [true]).shared = false := by
  decide

/-- C3 (amended): the shared event starts unset regardless of the members'
states at creation, and after any non-empty finite sequence of member
`set`/`clear` calls it is set iff at least one member event is set. -/
theorem C3_shared_event (members : List Bool) (ops : List EventOp)
    (hne : ops ≠ []) :
    (create_shared_event members).shared = false ∧
    (runEventOps (create_shared_event members) ops).shared =
      (runEventOps (create_shared_event members) ops).members.any id := by
  refine ⟨rfl, ?_⟩
  match ops with
  | op :: rest =>
    exact runEventOps_shared rest _
      (applyEventOp_shared (create_shared_event members) op)

/-- C3 witness: one member, initially unset, then set. -/
theorem C3_shared_event_witness :
    ([EventOp.set 0] ≠ ([] : List EventOp)) ∧
    ((create_shared_event [false]).shared = false ∧
     (runEventOps (create_shared_event [false]) [EventOp.set 0]).shared =
       (runEventOps (create_shared_event [false]) [EventOp.set 0]).members.any
         id) :=
  ⟨by decide, C3_shared_event [false] [EventOp.set 0] (by decide)⟩

/-- The receiver's scan touches exactly the first result whose `info` matches
the reply's sequence: it writes the latency there, marks it an error exactly
when the latency exceeds the interval, reports the event set exactly when it
does not, and leaves every other result unchanged. -/
theorem receiverScan_first_match (latency interval : ℚ) (sequence : Nat)
    (results : List PingResult) (i : Nat) (r0 : PingResult)
    (hfind : results.findIdx (fun r => r.info = some sequence) = i)
    (hget : results.get? i = some r0) :
    receiverScan latency interval sequence results =
      (results.set i
        { r0 with latency := latency,
                  error := if latency ≤ interval then r0.error else true },
       decide (latency ≤ interval)) := by
  induction results generalizing i with
  | nil => simp at hget
  | cons r rs ih =>
    by_cases hp : r.info = some sequence
    · have hi : i = 0 := by
        rw [List.findIdx_cons] at hfind
        simpa [hp] using hfind.symm
      subst hi
      have hr : r0 = r := by simpa using hget.symm
      subst hr
      by_cases hle : latency ≤ interval <;>
        simp [receiverScan, hp, hle]
    · rw [List.findIdx_cons] at hfind
      simp only [hp, decide_False, cond_false] at hfind
      match i, hfind with
      | i0 + 1, hfind =>
        have hget2 : rs.get? i0 = some r0 := by simpa using hget
        have := ih i0 (by omega) hget2
        simp [receiverScan, hp, this]

/-- C5: when the reply's payload identifier is registered in `host_map` (with
interval `interval`) and the raw results hold one whose `info` equals the
reply's sequence, the receiver writes the computed latency into exactly the
first such result and leaves every other result unchanged; it marks that
result an error exactly when the latency exceeds the interval recorded at
registration, and sets the host's reply event exactly when the latency is at
most that interval. -/
theorem C5_receiver_match (hostMap : List (Nat × ℚ))
    (identifier sequence : Nat) (latency interval : ℚ)
    (results : List PingResult) (i : Nat) (r0 : PingResult)
    (hreg : hostMap.lookup identifier = some interval)
    (hfind : results.findIdx (fun r => r.info = some sequence) = i)
    (hget : results.get? i = some r0) :
    receiverStep hostMap identifier sequence latency results =
      (results.set i
        { r0 with latency := latency,
                  error := if latency ≤ interval then r0.error else true },
       decide (latency ≤ interval)) := by
  unfold receiverStep
  rw [hreg]
  exact receiverScan_first_match latency interval sequence results i r0 hfind
    hget

/-- C5 witness: a registered identifier and a late reply (latency 2 against a
registered interval of 1) on a one-result host: the result becomes an error
with the new latency and the event is not set. -/
theorem C5_receiver_match_witness :
    ([((7 : Nat), (1 : ℚ))].lookup 7 = some 1 ∧
     [(⟨-1, false, true, some 5⟩ : PingResult)].findIdx
       (fun r => r.info = some 5) = 0 ∧
     [(⟨-1, false, true, some 5⟩ : PingResult)].get? 0 =
       some ⟨-1, false, true, some 5⟩) ∧
    receiverStep [(7, (1 : ℚ))] 7 5 2 [⟨-1, false, true, some 5⟩] =
      ([⟨2, true, true, some 5⟩], false) := by
  refine ⟨⟨rfl, by decide, rfl⟩, ?_⟩
  rw [C5_receiver_match [(7, (1 : ℚ))] 7 5 2 1 [⟨-1, false, true, some 5⟩] 0
    ⟨-1, false, true, some 5⟩ rfl (by decide) rfl]
  norm_num [List.set]

/-- One result-store operation preserves the buffer invariant: the stored
results fit in the capacity and the capacity is at least the minimum. -/
theorem applyHostOp_inv (h : HostState) (op : HostOp)
    (h1 : h.rawResults.length ≤ h.maxlen)
    (h2 : RESULTS_LENGTH_MINIMUM ≤ h.maxlen) :
    (applyHostOp h op).rawResults.length ≤ (applyHostOp h op).maxlen ∧
      RESULTS_LENGTH_MINIMUM ≤ (applyHostOp h op).maxlen := by
  cases op with
  | add l e hd i =>
    refine ⟨?_, h2⟩
    simp only [applyHostOp, HostState.add_result, dequeAppend,
      List.length_drop, List.length_append, List.length_singleton]
    omega
  | setLength n =>
    simp only [applyHostOp, HostState.set_results_length]
    split
    · exact ⟨h1, h2⟩
    · simp only [List.length_drop]
      unfold RESULTS_LENGTH_MINIMUM at h2 ⊢
      constructor
      · omega
      · have := le_max_right n ((RESULTS_LENGTH_MINIMUM : Int))
        unfold RESULTS_LENGTH_MINIMUM at this
        omega

/-- The buffer invariant is preserved along any sequence of result-store
operations. -/
theorem runHostOps_inv (ops : List HostOp) (h : HostState)
    (h1 : h.rawResults.length ≤ h.maxlen)
    (h2 : RESULTS_LENGTH_MINIMUM ≤ h.maxlen) :
    (runHostOps h ops).rawResults.length ≤ (runHostOps h ops).maxlen ∧
      RESULTS_LENGTH_MINIMUM ≤ (runHostOps h ops).maxlen := by
  induction ops generalizing h with
  | nil => exact ⟨h1, h2⟩
  | cons op rest ih =>
    have hstep := applyHostOp_inv h op h1 h2
    exact ih (applyHostOp h op) hstep.1 hstep.2

/-- C7: (i) along every sequence of result-store operations from a fresh
host, the number of stored results never exceeds the capacity and the
capacity is at least 50; (ii) appending to a full buffer drops the oldest
element; (iii) `set_results_length n` clamps the capacity to at least 50 and
keeps the stored results in oldest-first order, truncated to the most recent
ones when shrinking. -/
theorem C7_bounded_buffer :
    (∀ ops : List HostOp,
      (runHostOps Host.init ops).rawResults.length ≤
        (runHostOps Host.init ops).maxlen ∧
      RESULTS_LENGTH_MINIMUM ≤ (runHostOps Host.init ops).maxlen) ∧
    (∀ (h : HostState) (latency : ℚ) (error hidden : Bool)
        (info : Option Nat),
      h.rawResults.length = h.maxlen → 0 < h.maxlen →
      (h.add_result latency error hidden info).rawResults =
        h.rawResults.tail ++ [⟨latency, error, hidden, info⟩]) ∧
    (∀ (h : HostState) (n : Int), h.rawResults.length ≤ h.maxlen →
      (h.set_results_length n).maxlen =
        (max n ((RESULTS_LENGTH_MINIMUM : Nat) : Int)).toNat ∧
      (h.set_results_length n).rawResults =
        h.rawResults.drop (h.rawResults.length -
          (max n ((RESULTS_LENGTH_MINIMUM : Nat) : Int)).toNat)) := by
  refine ⟨?_, ?_, ?_⟩
  · intro ops
    exact runHostOps_inv ops Host.init (by simp [Host.init]) (by simp [Host.init])
  · intro h latency error hidden info hfull hpos
    simp only [HostState.add_result, dequeAppend]
    have hdrop : (h.rawResults ++ [(⟨latency, error, hidden, info⟩ :
        PingResult)]).length - h.maxlen = 1 := by
      simp only [List.length_append, List.length_singleton]
      omega
    rw [hdrop, List.drop_append_of_le_length (by omega), List.drop_one]
  · intro h n hle
    simp only [HostState.set_results_length]
    split
    · next heq =>
      refine ⟨heq, ?_⟩
      rw [← heq]
      have : h.rawResults.length - h.maxlen = 0 := by omega
      rw [this, List.drop_zero]
    · exact ⟨rfl, rfl⟩

/-- C7 witness: a (hypothetical) full one-slot buffer overflows by dropping
its only element, and a shrink request of `-3` clamps to the minimum. -/
theorem C7_bounded_buffer_witness :
    ((runHostOps Host.init []).rawResults.length ≤
      (runHostOps Host.init []).maxlen) ∧
    ((HostState.add_result
        { rawResults := [⟨1, false, false, none⟩], maxlen := 1,
          status := none, stopSignal := false, burstMode := false,
          testThread := none, threadAlive := false, threadsCreated := 0 }
        2 false false none).rawResults =
      [(⟨1, false, false, none⟩ : PingResult)].tail ++
        [⟨2, false, false, none⟩]) ∧
    ((HostState.set_results_length
        { rawResults := [⟨1, false, false, none⟩], maxlen := 1,
          status := none, stopSignal := false, burstMode := false,
          testThread := none, threadAlive := false, threadsCreated := 0 }
        (-3)).maxlen =
      (max (-3) ((RESULTS_LENGTH_MINIMUM : Nat) : Int)).toNat) :=
  ⟨(C7_bounded_buffer.1 []).1,
   C7_bounded_buffer.2.1 _ 2 false false none rfl (by decide),
   (C7_bounded_buffer.2.2 _ (-3) (by decide)).1⟩

/-- A `min`-fold is below its seed and below every element of the list. -/
theorem foldl_min_le (l : List ℚ) (a : ℚ) :
    l.foldl min a ≤ a ∧ ∀ x ∈ l, l.foldl min a ≤ x := by
  induction l generalizing a with
  | nil => exact ⟨le_refl a, by simp⟩
  | cons b t ih =>
    have h := ih (min a b)
    refine ⟨le_trans h.1 (min_le_left a b), ?_⟩
    intro x hx
    rcases List.mem_cons.mp hx with rfl | hx2
    · exact le_trans h.1 (min_le_right a x)
    · exact h.2 x hx2

/-- A `max`-fold is above its seed and above every element of the list. -/
theorem le_foldl_max (l : List ℚ) (a : ℚ) :
    a ≤ l.foldl max a ∧ ∀ x ∈ l, x ≤ l.foldl max a := by
  induction l generalizing a with
  | nil => exact ⟨le_refl a, by simp⟩
  | cons b t ih =>
    have h := ih (max a b)
    refine ⟨le_trans (le_max_left a b) h.1, ?_⟩
    intro x hx
    rcases List.mem_cons.mp hx with rfl | hx2
    · exact le_trans (le_max_right a x) h.1
    · exact h.2 x hx2

/-- `listMin` bounds every element of the list from below. -/
theorem listMin_le (x : ℚ) (xs : List ℚ) (hx : x ∈ xs) : listMin xs ≤ x := by
  match xs with
  | y :: t =>
    rcases List.mem_cons.mp hx with rfl | hx2
    · exact (foldl_min_le t x).1
    · exact (foldl_min_le t y).2 x hx2

/-- `listMax` bounds every element of the list from above. -/
theorem le_listMax (x : ℚ) (xs : List ℚ) (hx : x ∈ xs) : x ≤ listMax xs := by
  match xs with
  | y :: t =>
    rcases List.mem_cons.mp hx with rfl | hx2
    · exact (le_foldl_max t x).1
    · exact (le_foldl_max t y).2 x hx2

/-- A uniform lower bound on the elements bounds the sum from below. -/
theorem length_mul_le_sum (l : List ℚ) (c : ℚ) (hc : ∀ x ∈ l, c ≤ x) :
    (l.length : ℚ) * c ≤ l.sum := by
  induction l with
  | nil => simp
  | cons x t ih =>
    have h1 : c ≤ x := hc x (List.mem_cons_self x t)
    have h2 := ih (fun y hy => hc y (List.mem_cons_of_mem x hy))
    simp only [List.length_cons, List.sum_cons]
    push_cast
    nlinarith

/-- A uniform upper bound on the elements bounds the sum from above. -/
theorem sum_le_length_mul (l : List ℚ) (c : ℚ) (hc : ∀ x ∈ l, x ≤ c) :
    l.sum ≤ (l.length : ℚ) * c := by
  induction l with
  | nil => simp
  | cons x t ih =>
    have h1 : x ≤ c := hc x (List.mem_cons_self x t)
    have h2 := ih (fun y hy => hc y (List.mem_cons_of_mem x hy))
    simp only [List.length_cons, List.sum_cons]
    push_cast
    nlinarith

/-- C8: for every host whose visible results contain at least one success
(`latency ≥ 0`), the summary has non-null min/avg/max/loss with
`min ≤ avg ≤ max` and `loss ∈ [0, 1]`, and `stdev` is null iff there are
fewer than two successes. -/
theorem C8_summary_bounds (h : HostState)
    (hs : h.results.filter (fun r => 0 ≤ r.latency) ≠ []) :
    ∃ mn av mx l,
      h._get_results_summary.min = some mn ∧
      h._get_results_summary.avg = some av ∧
      h._get_results_summary.max = some mx ∧
      h._get_results_summary.loss = some l ∧
      mn ≤ av ∧ av ≤ mx ∧ 0 ≤ l ∧ l ≤ 1 ∧
      (h._get_results_summary.stdev = none ↔
        (h.results.filter (fun r => 0 ≤ r.latency)).length < 2) := by
  set xs := (h.results.filter (fun r => 0 ≤ r.latency)).map (fun r => r.latency)
    with hxs
  have hne : xs ≠ [] := fun hc => hs (List.map_eq_nil_iff.mp (hxs ▸ hc))
  have hIsEmpty : xs.isEmpty = false := by
    cases hx : xs with
    | nil => exact absurd hx hne
    | cons a t => rfl
  have hsum : h._get_results_summary =
      { min := some (listMin xs * 1000), avg := some (listMean xs * 1000),
        max := some (listMax xs * 1000),
        stdev := if 1 < xs.length then some (sampleVariance xs) else none,
        loss := some (1 - (xs.length : ℚ) / (h.results.length : ℚ)) } := by
    simp only [HostState._get_results_summary, ← hxs]
    rw [if_neg (by simp [hIsEmpty])]
  have hn : 0 < xs.length := List.length_pos.mpr hne
  have hnq : (0 : ℚ) < (xs.length : ℚ) := by exact_mod_cast hn
  have hflen : xs.length = (h.results.filter (fun r => 0 ≤ r.latency)).length :=
    by rw [hxs, List.length_map]
  have hle_total : xs.length ≤ h.results.length := by
    rw [hflen]; exact h.results.length_filter_le _
  have htq : (0 : ℚ) < (h.results.length : ℚ) := by
    have : 0 < h.results.length := lt_of_lt_of_le hn hle_total
    exact_mod_cast this
  refine ⟨listMin xs * 1000, listMean xs * 1000, listMax xs * 1000,
    1 - (xs.length : ℚ) / (h.results.length : ℚ), by rw [hsum], by rw [hsum],
    by rw [hsum], by rw [hsum], ?_, ?_, ?_, ?_, ?_⟩
  · refine mul_le_mul_of_nonneg_right ?_ (by norm_num)
    rw [listMean, le_div_iff₀ hnq, mul_comm]
    exact length_mul_le_sum xs (listMin xs) (fun x hx => listMin_le x xs hx)
  · refine mul_le_mul_of_nonneg_right ?_ (by norm_num)
    rw [listMean, div_le_iff₀ hnq, mul_comm]
    exact sum_le_length_mul xs (listMax xs) (fun x hx => le_listMax x xs hx)
  · have : (xs.length : ℚ) / (h.results.length : ℚ) ≤ 1 := by
      rw [div_le_one htq]
      exact_mod_cast hle_total
    linarith
  · have : 0 ≤ (xs.length : ℚ) / (h.results.length : ℚ) :=
      div_nonneg (by positivity) (by positivity)
    linarith
  · rw [hsum]
    rcases Nat.lt_or_ge 1 xs.length with hlt | hge
    · rw [if_pos hlt]
      constructor
      · intro hco; exact absurd hco (by simp)
      · intro hco; exfalso; omega
    · rw [if_neg (by omega)]
      exact ⟨fun _ => by omega, fun _ => rfl⟩

/-- C8 witness: a host with two successful results (latencies 1 and 3). -/
theorem C8_summary_bounds_witness :
    (((Host.init.add_result 1 false false none).add_result 3 false false
        none).results.filter (fun r => 0 ≤ r.latency) ≠ []) ∧
    (∃ mn av mx l,
      ((Host.init.add_result 1 false false none).add_result 3 false false
        none)._get_results_summary.min = some mn ∧
      ((Host.init.add_result 1 false false none).add_result 3 false false
        none)._get_results_summary.avg = some av ∧
      ((Host.init.add_result 1 false false none).add_result 3 false false
        none)._get_results_summary.max = some mx ∧
      ((Host.init.add_result 1 false false none).add_result 3 false false
        none)._get_results_summary.loss = some l ∧
      mn ≤ av ∧ av ≤ mx ∧ 0 ≤ l ∧ l ≤ 1 ∧
      (((Host.init.add_result 1 false false none).add_result 3 false false
          none)._get_results_summary.stdev = none ↔
        (((Host.init.add_result 1 false false none).add_result 3 false false
          none).results.filter (fun r => 0 ≤ r.latency)).length < 2)) :=
  ⟨by decide, C8_summary_bounds _ (by decide)⟩

/-- The end-around-carry loop terminates below `2^16`. -/
theorem foldCarry_lt (c : Nat) : foldCarry c < 2 ^ 16 := by
  induction c using foldCarry.induct with
  | case1 c h => rw [foldCarry, if_pos h]; exact h
  | case2 c h ih => rw [foldCarry, if_neg h]; exact ih

/-- The end-around-carry loop preserves the value modulo `2^16 - 1`. -/
theorem foldCarry_mod (c : Nat) : foldCarry c % 65535 = c % 65535 := by
  induction c using foldCarry.induct with
  | case1 c h => rw [foldCarry, if_pos h]
  | case2 c h ih => rw [foldCarry, if_neg h, ih]; omega

/-- The end-around-carry loop yields zero exactly on zero. -/
theorem foldCarry_eq_zero (c : Nat) : foldCarry c = 0 ↔ c = 0 := by
  induction c using foldCarry.induct with
  | case1 c h => rw [foldCarry, if_pos h]
  | case2 c h ih => rw [foldCarry, if_neg h, ih]; omega

/-- A byte swap of a 16-bit value stays 16-bit. -/
theorem swap16_lt (x : Nat) (hx : x < 2 ^ 16) : swap16 x < 2 ^ 16 := by
  unfold swap16; omega

/-- A byte swap of a 16-bit value is an involution. -/
theorem swap16_swap16 (x : Nat) (hx : x < 2 ^ 16) : swap16 (swap16 x) = x := by
  unfold swap16; omega

/-- A byte swap multiplies by 256 modulo `2^16 - 1` (RFC 1071's byte-order
independence of the one's-complement sum rests on this). -/
theorem swap16_mod (x : Nat) : swap16 x % 65535 = 256 * x % 65535 := by
  unfold swap16; omega

/-- A byte swap yields zero exactly on zero. -/
theorem swap16_eq_zero (x : Nat) : swap16 x = 0 ↔ x = 0 := by
  unfold swap16; omega

/-- A byte swap commutes with the 16-bit one's complement. -/
theorem swap16_compl (x : Nat) (hx : x < 2 ^ 16) :
    2 ^ 16 - 1 - swap16 x = swap16 (2 ^ 16 - 1 - x) := by
  unfold swap16; omega

/-- On a byte string, the little-endian 16-bit words are the byte swaps of the
big-endian ones. -/
theorem words16_le_eq_map (data : List Nat) (hb : ∀ b ∈ data, b < 256) :
    words16 .littleEndian data = (words16 .bigEndian data).map swap16 := by
  match data with
  | [] => rfl
  | [a] => rfl
  | a :: b :: rest =>
    have ha : a < 256 := hb a (by simp)
    have hbb : b < 256 := hb b (by simp)
    have ih := words16_le_eq_map rest (fun x hx => hb x (by simp [hx]))
    simp only [words16, List.map_cons, ih, List.cons.injEq, and_true]
    unfold swap16
    omega

/-- The sum of the byte-swapped words is congruent to 256 times the sum of
the words, modulo `2^16 - 1`. -/
theorem sum_map_swap16_mod (ws : List Nat) :
    (ws.map swap16).sum % 65535 = 256 * ws.sum % 65535 := by
  induction ws with
  | nil => rfl
  | cons w t ih =>
    simp only [List.map_cons, List.sum_cons]
    have h1 := swap16_mod w
    omega

/-- The zero test of the swapped-word sum matches that of the word sum. -/
theorem sum_map_swap16_eq_zero (ws : List Nat) :
    (ws.map swap16).sum = 0 ↔ ws.sum = 0 := by
  induction ws with
  | nil => simp
  | cons w t ih =>
    simp only [List.map_cons, List.sum_cons]
    have h1 := swap16_eq_zero w
    omega

/-- Byte-order independence of the one's-complement sum: folding the
byte-swapped words gives the byte swap of folding the words. -/
theorem foldCarry_sum_swap (ws : List Nat) :
    foldCarry (ws.map swap16).sum = swap16 (foldCarry ws.sum) := by
  have h1 : foldCarry (ws.map swap16).sum < 2 ^ 16 := foldCarry_lt _
  have h2 : swap16 (foldCarry ws.sum) < 2 ^ 16 :=
    swap16_lt _ (foldCarry_lt _)
  have m1 := foldCarry_mod (ws.map swap16).sum
  have m2 := sum_map_swap16_mod ws
  have m3 := swap16_mod (foldCarry ws.sum)
  have m4 := foldCarry_mod ws.sum
  have z1 := foldCarry_eq_zero (ws.map swap16).sum
  have z2 := sum_map_swap16_eq_zero ws
  have z3 := swap16_eq_zero (foldCarry ws.sum)
  have z4 := foldCarry_eq_zero ws.sum
  omega

/-- On both byte orders, `Session.get_checksum` of an even-length byte string
is the network-byte-order encoding of the RFC 1071 checksum computed over the
big-endian 16-bit words. -/
theorem get_checksum_network (bo : ByteOrder) (data : List Nat)
    (hb : ∀ b ∈ data, b < 256) (heven : data.length % 2 = 0) :
    get_checksum bo data = packH (rfc1071Checksum data) := by
  cases bo with
  | bigEndian =>
    simp only [get_checksum, htons, rfc1071Checksum, packH]
    rw [if_neg (by omega)]
  | littleEndian =>
    simp only [get_checksum, htons, rfc1071Checksum, packH]
    rw [if_neg (by omega), words16_le_eq_map data hb,
      foldCarry_sum_swap _,
      swap16_compl _ (foldCarry_lt _),
      swap16_swap16 _ (by have := foldCarry_lt (words16 .bigEndian data).sum; omega)]

/-- C9: for a v4 session, `create_icmp_echo` advances the 16-bit sequence
modulo `2^16` and returns a 14-byte packet — type 8, code 0, then the
checksum, identifier, sequence, payload identifier and timestamp fields —
whose checksum field, in network byte order, is the RFC 1071 16-bit one's
complement of the one's-complement sum of the packet's big-endian 16-bit
words with the checksum field zeroed, on either host byte order. -/
theorem C9_icmp_echo (bo : ByteOrder) (identifier sequence : Nat)
    (tsBytes : List Nat) (hid : identifier < 2 ^ 16)
    (hts : tsBytes.length = 4) (htb : ∀ b ∈ tsBytes, b < 256) :
    ((Session.init 4 identifier sequence).create_icmp_echo bo
        tsBytes).1.sequence = (sequence + 1) % 2 ^ 16 ∧
    ((Session.init 4 identifier sequence).create_icmp_echo bo
        tsBytes).2.length = 14 ∧
    ((Session.init 4 identifier sequence).create_icmp_echo bo tsBytes).2 =
      [8, 0] ++
        packH (rfc1071Checksum
          (packIcmpEcho 8 0 identifier ((sequence + 1) % 2 ^ 16) tsBytes)) ++
        packH identifier ++ packH ((sequence + 1) % 2 ^ 16) ++
        packH identifier ++ tsBytes := by
  have hseqlt : (sequence + 1) % 2 ^ 16 < 2 ^ 16 := Nat.mod_lt _ (by norm_num)
  have h256 : ∀ (x : Nat), x < 2 ^ 16 → ∀ b ∈ packH x, b < 256 := by
    intro x hx b hbm
    simp only [packH, List.mem_cons, List.not_mem_nil, or_false] at hbm
    rcases hbm with rfl | rfl <;> omega
  have hreq : ((Session.init 4 identifier sequence).create_icmp_echo bo
      tsBytes).2 =
      (packIcmpEcho 8 0 identifier ((sequence + 1) % 2 ^ 16) tsBytes).take 2 ++
        get_checksum bo
          (packIcmpEcho 8 0 identifier ((sequence + 1) % 2 ^ 16) tsBytes) ++
        (packIcmpEcho 8 0 identifier ((sequence + 1) % 2 ^ 16) tsBytes).drop 4
      := by
    simp [Session.create_icmp_echo, Session.init]
  have hb : ∀ b ∈ packIcmpEcho 8 0 identifier ((sequence + 1) % 2 ^ 16)
      tsBytes, b < 256 := by
    intro b hbmem
    simp only [packIcmpEcho, List.append_assoc, List.mem_append] at hbmem
    rcases hbmem with h | h | h | h | h | h
    · simp only [List.mem_cons, List.not_mem_nil, or_false] at h
      rcases h with rfl | rfl <;> norm_num
    · exact h256 0 (by norm_num) b h
    · exact h256 identifier (by omega) b h
    · exact h256 _ hseqlt b h
    · exact h256 identifier (by omega) b h
    · exact htb b h
  have hlen14 : (packIcmpEcho 8 0 identifier ((sequence + 1) % 2 ^ 16)
      tsBytes).length = 14 := by
    simp [packIcmpEcho, packH, hts]
  have hchk := get_checksum_network bo
    (packIcmpEcho 8 0 identifier ((sequence + 1) % 2 ^ 16) tsBytes) hb
    (by rw [hlen14])
  refine ⟨?_, ?_, ?_⟩
  · simp [Session.create_icmp_echo, Session.init]
  · rw [hreq, hchk]
    simp [packIcmpEcho, packH, hts]
  · rw [hreq, hchk]
    simp [packIcmpEcho, packH]

/-- C9 witness: both byte orders at a concrete identifier, sequence and
timestamp encoding. -/
theorem C9_icmp_echo_witness :
    ((43981 : Nat) < 2 ^ 16 ∧ [(64 : Nat), 73, 15, 219].length = 4 ∧
      ∀ b ∈ [(64 : Nat), 73, 15, 219], b < 256) ∧
    (((Session.init 4 43981 4660).create_icmp_echo .littleEndian
        [64, 73, 15, 219]).1.sequence = (4660 + 1) % 2 ^ 16 ∧
     ((Session.init 4 43981 4660).create_icmp_echo .littleEndian
        [64, 73, 15, 219]).2.length = 14 ∧
     ((Session.init 4 43981 4660).create_icmp_echo .littleEndian
        [64, 73, 15, 219]).2 =
       [8, 0] ++
         packH (rfc1071Checksum
           (packIcmpEcho 8 0 43981 ((4660 + 1) % 2 ^ 16) [64, 73, 15, 219])) ++
         packH 43981 ++ packH ((4660 + 1) % 2 ^ 16) ++
         packH 43981 ++ [64, 73, 15, 219]) ∧
    (((Session.init 4 43981 4660).create_icmp_echo .bigEndian
        [64, 73, 15, 219]).2 =
       [8, 0] ++
         packH (rfc1071Checksum
           (packIcmpEcho 8 0 43981 ((4660 + 1) % 2 ^ 16) [64, 73, 15, 219])) ++
         packH 43981 ++ packH ((4660 + 1) % 2 ^ 16) ++
         packH 43981 ++ [64, 73, 15, 219]) :=
  ⟨⟨by decide, rfl, by decide⟩,
   C9_icmp_echo .littleEndian 43981 4660 [64, 73, 15, 219] (by decide) rfl
     (by decide),
   (C9_icmp_echo .bigEndian 43981 4660 [64, 73, 15, 219] (by decide) rfl
     (by decide)).2.2⟩

end Cping
